import Mathlib

/-!
Shallow embedding of the document-upload serverless handler
(`api/onboarding/upload-documents`) of the roam-partner-management repository,
together with proofs checking the natural-language specification of the
document intake reconciliation step against the code.

All string processing is modelled on `List Char` with structural recursion so
that every definition evaluates inside the kernel.
-/

namespace Roam

/-! ## JavaScript character classes

The handler normalizes filenames with the regexes `/[^\w\s.-]/g` and `/\s+/g`
followed by `.trim()`.  `\w` in JavaScript (no `u` flag) is `[A-Za-z0-9_]`;
`\s` is the ECMAScript WhiteSpace ∪ LineTerminator set, which is also the set
removed by `String.prototype.trim`. -/

def isDigitJS (c : Char) : Bool :=
  '0' ≤ c && c ≤ '9'

def isAlphaJS (c : Char) : Bool :=
  ('A' ≤ c && c ≤ 'Z') || ('a' ≤ c && c ≤ 'z')

/-- JavaScript `\w`: ASCII letters, digits and underscore. -/
def isWordCharJS (c : Char) : Bool :=
  isAlphaJS c || isDigitJS c || c = '_'

/-- JavaScript `\s` (= the `trim` whitespace set): WhiteSpace ∪ LineTerminator. -/
def isSpaceJS (c : Char) : Bool :=
  c = ' ' || c = '\t' || c = '\n' || c = '\r' ||
  c = (Char.ofNat 0xB) || c = (Char.ofNat 0xC) ||
  c = (Char.ofNat 0xA0) || c = (Char.ofNat 0x1680) ||
  ((Char.ofNat 0x2000) ≤ c && c ≤ (Char.ofNat 0x200A)) ||
  c = (Char.ofNat 0x2028) || c = (Char.ofNat 0x2029) ||
  c = (Char.ofNat 0x202F) || c = (Char.ofNat 0x205F) ||
  c = (Char.ofNat 0x3000) || c = (Char.ofNat 0xFEFF)

/-- The characters kept (not turned into a space) by `/[^\w\s.-]/g → " "`. -/
def keepJS (c : Char) : Bool :=
  isWordCharJS c || isSpaceJS c || c = '.' || c = '-'

/-! ## List-level string machinery -/

/-- Stage 1 of the normalizer: `.replace(/[^\w\s.-]/g, " ")`. -/
def replaceBad (l : List Char) : List Char :=
  l.map fun c => if keepJS c then c else ' '

/-- Stage 2 of the normalizer: `.replace(/\s+/g, " ")` — every maximal run of
JavaScript whitespace becomes one literal space. -/
def collapseWS : List Char → List Char
  | [] => []
  | [a] => [if isSpaceJS a then ' ' else a]
  | a :: b :: t =>
    if isSpaceJS a && isSpaceJS b then collapseWS (b :: t)
    else (if isSpaceJS a then ' ' else a) :: collapseWS (b :: t)

/-- Leading-whitespace strip, as in `trimStart`. -/
def trimL (l : List Char) : List Char :=
  l.dropWhile isSpaceJS

/-- Trailing-whitespace strip, as in `trimEnd`. -/
def trimR (l : List Char) : List Char :=
  (l.reverse.dropWhile isSpaceJS).reverse

/-- Stage 3 of the normalizer: `.trim()`. -/
def trimWS (l : List Char) : List Char :=
  trimR (trimL l)

/-- The filename normalizer of the handler (lines 155–158 / 161–164 of the
source): replace every character outside `\w`, `\s`, `.`, `-` with a space,
collapse whitespace runs, trim. -/
def normalizedName (s : String) : String :=
  ⟨trimWS (collapseWS (replaceBad s.data))⟩

/-! ## Decimal rendering (JavaScript number-to-string for naturals) -/

/-- Fuel-indexed decimal digit list; `fuel > n` always suffices. -/
def decDigitsAux : Nat → Nat → List Char
  | 0, _ => []
  | f + 1, n =>
    if n < 10 then [Nat.digitChar n]
    else decDigitsAux f (n / 10) ++ [Nat.digitChar (n % 10)]

/-- Decimal rendering of a natural number, as JavaScript template literals
render integral numbers. -/
def decRepr (n : Nat) : String :=
  ⟨decDigitsAux (n + 1) n⟩

/-- Value of a decimal digit character. -/
def digitVal (c : Char) : Nat := c.toNat - 48

/-- Decimal value of a digit list (most significant first). -/
def valOf (l : List Char) : Nat :=
  l.foldl (fun a c => 10 * a + digitVal c) 0

/-! ## Document-type resolution

Lines 147–175 of the source: exact mapping lookup (JavaScript falsy test, so
an empty-string value does not count), then first normalized-key match, then
the positional fallback `document_<i>`.  `documentMappings` is parsed by
`JSON.parse`, whose object preserves key insertion order, so the mapping is
embedded as an association list enumerated in order. -/

/-- Exact property lookup, `mappings[file.originalname]`. -/
def lookupExact (name : String) (m : List (String × String)) : Option String :=
  (m.find? fun kv => kv.1 == name).map fun kv => kv.2

/-- The `for (const [mappingKey, mappingValue] of Object.entries(mappings))`
loop: first key with equal normalized form wins. -/
def lookupNormalized (name : String) (m : List (String × String)) : Option String :=
  (m.find? fun kv => normalizedName kv.1 == normalizedName name).map fun kv => kv.2

/-- Document-type resolution for the file at zero-based batch position `i`. -/
def resolveDocumentType (name : String) (m : List (String × String)) (i : Nat) : String :=
  let dt0 := match lookupExact name m with
    | some v => v
    | none => ""
  let dt1 :=
    if dt0 = "" then
      match lookupNormalized name m with
      | some v => v
      | none => ""
    else dt0
  if dt1 = "" then "document_" ++ decRepr i else dt1

/-! ## File-extension extraction: `file.originalname.split(".").pop()` -/

def splitDotsAux : List Char → List Char → List (List Char)
  | [], acc => [acc.reverse]
  | c :: t, acc =>
    if c = '.' then acc.reverse :: splitDotsAux t [] else splitDotsAux t (c :: acc)

/-- The substring after the last `.` (the whole name when there is no dot). -/
def lastExt (s : String) : String :=
  ⟨(splitDotsAux s.data []).getLastD []⟩

/-! ## toFixed(2) of `size / (1024*1024)`

The byte size is an integer below 2^53, so the JavaScript double
`file.size / (1024 * 1024)` is the exact rational `size / 2^20`, and
`toFixed(2)` yields the nearest multiple of 1/100 (ties towards the larger
numerator). -/

def pad2 (n : Nat) : String :=
  (if n < 10 then "0" else "") ++ decRepr n

/-- Embeds `(size / (1024*1024)).toFixed(2)`. -/
def fixed2MB (size : Nat) : String :=
  let cents := (size * 200 + 1048576) / 2097152
  decRepr (cents / 100) ++ "." ++ pad2 (cents % 100)

/-! ## Data model -/

structure UFile where
  originalname : String
  mimetype : String
  size : Nat
  deriving DecidableEq, Repr

/-- A row of the `business_documents` table as inserted by the handler. -/
structure DocRow where
  business_id : String
  document_type : String
  document_name : String
  file_url : String
  file_size_bytes : Nat
  verification_status : String
  deriving DecidableEq, Repr

/-- The row of `business_profiles` for the business under intake. -/
structure BizProfile where
  id : String
  business_type : String
  verification_status : String
  setup_step : Nat
  deriving DecidableEq, Repr

/-- The remote row store visible to the handler. -/
structure DB where
  docs : List DocRow
  profile : BizProfile
  deriving DecidableEq, Repr

/-- A per-batch success entry (`uploadedDocuments.push` shape). -/
structure UpEntry where
  id : String
  documentType : String
  fileName : String
  url : String
  status : String
  uploadedAt : String
  deriving DecidableEq, Repr

/-- Remote storage calls performed while processing a batch. -/
inductive Event where
  | storWrite (path : String)
  | storRemove (path : String)
  deriving DecidableEq, Repr

/-- Outcomes of the remote calls for the file at batch index `i`, and the
values returned by the environment (record ids, timestamps, public URLs).
`removeOk` is the outcome of the compensating blob delete; the code never
reads it. -/
structure Oracle where
  uploadOk : Nat → Bool
  uploadErrMsg : Nat → String
  uploadErrMentionsMax : Nat → Bool
  insertOk : Nat → Bool
  insertErrMsg : Nat → String
  recId : Nat → String
  uploadedAt : Nat → String
  timeOf : Nat → Nat
  pubUrl : String → String
  removeOk : Nat → Bool

/-- Accumulated result of processing a batch of files. -/
structure BatchAcc where
  db : DB
  uploaded : List UpEntry
  errors : List String
  events : List Event
  deriving Repr

/-- The file name `` `${documentType}_${timestamp}.${fileExtension}` `` of line 193. -/
def mkFileName (documentType : String) (timestamp : Nat) (fileExtension : String) : String :=
  documentType ++ "_" ++ decRepr timestamp ++ "." ++ fileExtension

/-- The path `` `provider-documents/${businessId}/${fileName}` `` of line 194. -/
def mkFilePath (businessId fileName : String) : String :=
  "provider-documents/" ++ businessId ++ "/" ++ fileName

/-- The per-file error pushed when the 5 MB check throws and the
`catch (fileError)` block reports it (lines 186–187 and 300–305). -/
def mkSizeErr (name : String) (size : Nat) : String :=
  "Failed to process " ++ name ++ ": File size (" ++ fixed2MB size ++
    " MB) exceeds the 5MB limit"

/-- One iteration of the per-file loop (lines 147–306).  A file is rejected
before any remote call when `size / 2^20 > 5`, i.e. `size > 5·2^20` bytes. -/
def processFile (businessId : String) (mappings : List (String × String))
    (o : Oracle) (i : Nat) (file : UFile) (db : DB) : BatchAcc :=
  let documentType := resolveDocumentType file.originalname mappings i
  if 5242880 < file.size then
    ⟨db, [], [mkSizeErr file.originalname file.size], []⟩
  else
    let filePath := mkFilePath businessId
      (mkFileName documentType (o.timeOf i) (lastExt file.originalname))
    if o.uploadOk i = false then
      let errorMessage :=
        if o.uploadErrMentionsMax i then
          "File size (" ++ fixed2MB file.size ++
            " MB) is too large. Please upload a file smaller than 5MB."
        else o.uploadErrMsg i
      ⟨db, [], ["Failed to upload " ++ file.originalname ++ ": " ++ errorMessage],
        [.storWrite filePath]⟩
    else
      let publicUrl := o.pubUrl filePath
      if o.insertOk i = false then
        ⟨db, [],
          ["Failed to save record for " ++ file.originalname ++ ": " ++ o.insertErrMsg i],
          [.storWrite filePath, .storRemove filePath]⟩
      else
        ⟨{ db with docs := db.docs ++
            [{ business_id := businessId, document_type := documentType,
               document_name := file.originalname, file_url := publicUrl,
               file_size_bytes := file.size, verification_status := "pending" }] },
          [{ id := o.recId i, documentType := documentType,
             fileName := file.originalname, url := publicUrl,
             status := "uploaded", uploadedAt := o.uploadedAt i }],
          [], [.storWrite filePath]⟩

/-- The sequential per-file loop over the batch, starting at index `i`. -/
def processFiles (businessId : String) (mappings : List (String × String))
    (o : Oracle) : List UFile → Nat → DB → BatchAcc
  | [], _, db => ⟨db, [], [], []⟩
  | f :: rest, i, db =>
    let r1 := processFile businessId mappings o i f db
    let r2 := processFiles businessId mappings o rest (i + 1) r1.db
    ⟨r2.db, r1.uploaded ++ r2.uploaded, r1.errors ++ r2.errors, r1.events ++ r2.events⟩

/-- Batch-level post-processing (lines 308–329): when at least one file
succeeded, re-query the (already updated) documents table and bump
`setup_step` only when that query comes back empty.  `profile0` is the
profile row fetched before the loop. -/
def postProcess (businessId : String) (profile0 : BizProfile) (acc : BatchAcc) : DB :=
  if acc.uploaded.length > 0 then
    let existingDocs :=
      ((acc.db.docs.filter fun d => d.business_id == businessId).take 1)
    if existingDocs.length == 0 then
      if acc.db.profile.id == businessId then
        { acc.db with profile := { acc.db.profile with
            setup_step :=
              max (if profile0.verification_status == "pending" then 2 else 1) 2 } }
      else acc.db
    else acc.db
  else acc.db

/-! ## Requirement evaluator (lines 331–353) -/

/-- Document types of the business's rows whose verification status is
pending, verified or under_review. -/
def qualifyingTypes (businessId : String) (db : DB) : List String :=
  (db.docs.filter fun d =>
    d.business_id == businessId &&
      (d.verification_status == "pending" || d.verification_status == "verified" ||
        d.verification_status == "under_review")).map fun d => d.document_type

/-- The required document types for a business's legal form. -/
def requiredTypesFor (business_type : String) : List String :=
  ["drivers_license", "proof_of_address", "professional_license",
    "professional_certificate"] ++
    (if business_type ≠ "sole_proprietorship" then ["business_license"] else [])

/-- Embeds `requiredTypes.every((type) => uploadedTypes.includes(type))`. -/
def allRequiredUploaded (business_type businessId : String) (db : DB) : Bool :=
  (requiredTypesFor business_type).all fun t => (qualifyingTypes businessId db).contains t

/-! ## Intake middleware (multer, lines 11–29 and 78) -/

def allowedTypes : List String := ["image/jpeg", "image/png", "application/pdf"]

/-- The multer middleware over the streamed files: at most `left` more files
accepted, each must pass the file filter (MIME type) and the 10 MB
`fileSize` limit; the first violation aborts the whole parse with an error. -/
def multerCheck : Nat → List UFile → Option String
  | _, [] => none
  | left, f :: rest =>
    if left = 0 then some "Unexpected field"
    else if (allowedTypes.contains f.mimetype) = false then
      some "Invalid file type. Only JPEG, PNG, and PDF files are allowed."
    else if 10485760 < f.size then some "File too large"
    else multerCheck (left - 1) rest

/-! ## The handler -/

structure UploadRequest where
  files : List UFile
  userId : String
  businessId : String
  /-- Parsed document mappings: `none` models a `documentMappings` string
  that `JSON.parse` rejects; a missing field defaults to `some []`. -/
  documentMappings : Option (List (String × String))

structure RespBody where
  uploaded : List UpEntry
  errors : Option (List String)
  allRequiredUploaded : Bool
  requiredDocuments : List String
  uploadedDocuments : List String
  deriving DecidableEq, Repr

inductive HResp where
  | fatal (status : Nat) (error : String) (details : Option String)
  | ok (body : RespBody)
  deriving DecidableEq, Repr

/-- The whole request handler (POST path): multer middleware, precondition
validation, the per-file loop, setup-step post-processing, requirement
evaluation, and the structured response.  `ownerOk` is the outcome of the
`providers` ownership lookup.  Returns the response, the final database
state, and the trace of remote storage calls. -/
def handler (req : UploadRequest) (ownerOk : Bool) (o : Oracle) (db : DB) :
    HResp × DB × List Event :=
  match multerCheck 10 req.files with
  | some msg => (.fatal 500 "Internal server error" (some msg), db, [])
  | none =>
    if req.userId = "" ∨ req.businessId = "" then
      (.fatal 400 "Missing userId or businessId" none, db, [])
    else if req.files.length = 0 then
      (.fatal 400 "No files uploaded" none, db, [])
    else
      match req.documentMappings with
      | none => (.fatal 400 "Invalid document mappings" none, db, [])
      | some mappings =>
        if ownerOk = false then
          (.fatal 404 "Business profile not found or not owned by user" none, db, [])
        else if (db.profile.id == req.businessId) = false then
          (.fatal 404 "Business profile not found" none, db, [])
        else
          let businessProfile := db.profile
          let acc := processFiles req.businessId mappings o req.files 0 db
          let db2 := postProcess req.businessId businessProfile acc
          let uploadedTypes := qualifyingTypes req.businessId db2
          let required := requiredTypesFor businessProfile.business_type
          (.ok { uploaded := acc.uploaded,
                 errors := if acc.errors.length > 0 then some acc.errors else none,
                 allRequiredUploaded :=
                   required.all fun t => uploadedTypes.contains t,
                 requiredDocuments := required,
                 uploadedDocuments := uploadedTypes }, db2, acc.events)

/-! ## Spec-side normalizer definitions

`claimNormalizedName` follows the specification's words literally: characters
outside *alphanumerics*, whitespace, `.` and `-` are replaced (the
specification does not keep the underscore).  `amendedNormalizedName` keeps
the underscore as the code does, and states collapsing-and-trimming
independently, as joining the whitespace-separated words with single
spaces. -/

def isAlphanumJS (c : Char) : Bool :=
  isAlphaJS c || isDigitJS c

/-- Keep-set read off the claim's words: alphanumerics, whitespace, `.`, `-`. -/
def claimKeep (c : Char) : Bool :=
  isAlphanumJS c || isSpaceJS c || c = '.' || c = '-'

/-- The normalizer as the claim words it (no underscore in the keep-set). -/
def claimNormalizedName (s : String) : String :=
  ⟨trimWS (collapseWS (s.data.map fun c => if claimKeep c then c else ' '))⟩

/-- Keep-set of the amended claim: alphanumerics, underscore, whitespace,
`.`, `-`. -/
def amendedKeep (c : Char) : Bool :=
  isAlphanumJS c || c = '_' || isSpaceJS c || c = '.' || c = '-'

/-- Fuel-indexed word splitter; `fuel > l.length` always suffices. -/
def splitWordsF : Nat → List Char → List (List Char)
  | _, [] => []
  | 0, _ :: _ => []
  | f + 1, c :: t =>
    if isSpaceJS c then splitWordsF f t
    else (c :: t.takeWhile fun d => !(isSpaceJS d)) ::
      splitWordsF f (t.dropWhile fun d => !(isSpaceJS d))

/-- The maximal whitespace-free words of a character list, in order. -/
def splitWords (l : List Char) : List (List Char) :=
  splitWordsF (l.length + 1) l

/-- Join words with single spaces: collapsing runs of whitespace to one space
and trimming leading/trailing whitespace, stated independently. -/
def joinWords : List (List Char) → List Char
  | [] => []
  | [w] => w
  | w :: ws => w ++ ' ' :: joinWords ws

/-- The amended-claim normalizer: replace every character outside
alphanumerics, underscore, whitespace, `.`, `-` with a space, then join the
whitespace-separated words with single spaces. -/
def amendedNormalizedName (s : String) : String :=
  ⟨joinWords (splitWords (s.data.map fun c => if amendedKeep c then c else ' '))⟩

/-! ## Concrete fixtures for witnesses and counterexamples -/

/-- An environment in which every remote call succeeds. -/
def goodOracle : Oracle where
  uploadOk := fun _ => true
  uploadErrMsg := fun _ => ""
  uploadErrMentionsMax := fun _ => false
  insertOk := fun _ => true
  insertErrMsg := fun _ => ""
  recId := fun i => "rec" ++ decRepr i
  uploadedAt := fun _ => "2026-01-01T00:00:00Z"
  timeOf := fun _ => 1000
  pubUrl := fun p => "https://cdn.example/" ++ p
  removeOk := fun _ => true

/-- An environment in which every storage upload succeeds and every database
insert fails. -/
def insFailOracle : Oracle where
  uploadOk := fun _ => true
  uploadErrMsg := fun _ => ""
  uploadErrMentionsMax := fun _ => false
  insertOk := fun _ => false
  insertErrMsg := fun _ => "row insert refused"
  recId := fun i => "rec" ++ decRepr i
  uploadedAt := fun _ => "2026-01-01T00:00:00Z"
  timeOf := fun _ => 1000
  pubUrl := fun p => "https://cdn.example/" ++ p
  removeOk := fun _ => false

def baseProfile : BizProfile where
  id := "b1"
  business_type := "llc"
  verification_status := "pending"
  setup_step := 1

/-- A database holding no document at all for any business. -/
def emptyDb : DB where
  docs := []
  profile := baseProfile

def onePdf : UFile where
  originalname := "a.pdf"
  mimetype := "application/pdf"
  size := 100

def oneReq : UploadRequest where
  files := [onePdf]
  userId := "u1"
  businessId := "b1"
  documentMappings := some [("a.pdf", "drivers_license")]

/-- Number of success entries of a response (0 for a fatal response). -/
def okUploadedCount : HResp → Nat
  | .fatal _ _ _ => 0
  | .ok b => b.uploaded.length

/-- The `errors` field of a structured response (`none` for fatal). -/
def okErrorsField : HResp → Option (Option (List String))
  | .fatal _ _ _ => none
  | .ok b => some b.errors

/-- A database in which business `b1` owns qualifying rows of all five
required document types. -/
def fullDb : DB where
  docs :=
    [ { business_id := "b1", document_type := "drivers_license",
        document_name := "d1", file_url := "u1", file_size_bytes := 1,
        verification_status := "pending" },
      { business_id := "b1", document_type := "proof_of_address",
        document_name := "d2", file_url := "u2", file_size_bytes := 1,
        verification_status := "verified" },
      { business_id := "b1", document_type := "professional_license",
        document_name := "d3", file_url := "u3", file_size_bytes := 1,
        verification_status := "under_review" },
      { business_id := "b1", document_type := "professional_certificate",
        document_name := "d4", file_url := "u4", file_size_bytes := 1,
        verification_status := "pending" },
      { business_id := "b1", document_type := "business_license",
        document_name := "d5", file_url := "u5", file_size_bytes := 1,
        verification_status := "pending" } ]
  profile := baseProfile

/-- Two distinct files that both resolve to `drivers_license`. -/
def twinFiles : List UFile :=
  [ { originalname := "a.pdf", mimetype := "application/pdf", size := 100 },
    { originalname := "b.pdf", mimetype := "application/pdf", size := 200 } ]

def twinMap : List (String × String) :=
  [("a.pdf", "drivers_license"), ("b.pdf", "drivers_license")]

def oversizedFile : UFile where
  originalname := "big.pdf"
  mimetype := "application/pdf"
  size := 6291456

def badMimeFile : UFile where
  originalname := "evil.gif"
  mimetype := "image/gif"
  size := 100

def badReq : UploadRequest where
  files := [badMimeFile, onePdf]
  userId := "u1"
  businessId := "b1"
  documentMappings := some []

/-! # Theorems -/

/-! ## Decimal rendering lemmas -/

theorem valOf_append_digit (l : List Char) (c : Char) :
    valOf (l ++ [c]) = 10 * valOf l + digitVal c := by
  simp [valOf, List.foldl_append]

theorem digitVal_digitChar {d : Nat} (h : d < 10) :
    digitVal (Nat.digitChar d) = d := by
  interval_cases d <;> rfl

theorem digitChar_ne_dot {d : Nat} (h : d < 10) : Nat.digitChar d ≠ '.' := by
  interval_cases d <;> decide

theorem valOf_decDigitsAux : ∀ f n, n < f → valOf (decDigitsAux f n) = n := by
  intro f
  induction f with
  | zero => intro n h; omega
  | succ f ih =>
    intro n h
    by_cases h10 : n < 10
    · simp [decDigitsAux, h10, valOf, digitVal_digitChar h10]
    · have hlt : n / 10 < n := Nat.div_lt_self (by omega) (by omega)
      have hd : n / 10 < f := by omega
      rw [decDigitsAux, if_neg h10, valOf_append_digit, ih _ hd,
        digitVal_digitChar (Nat.mod_lt _ (by omega))]
      omega

theorem decRepr_inj {m n : Nat} (h : decRepr m = decRepr n) : m = n := by
  have h2 := congrArg (fun s => valOf s.data) h
  simp only [decRepr] at h2
  rwa [valOf_decDigitsAux _ _ (Nat.lt_succ_self m),
    valOf_decDigitsAux _ _ (Nat.lt_succ_self n)] at h2

theorem mem_decDigitsAux : ∀ f n c, n < f → c ∈ decDigitsAux f n →
    ∃ d, d < 10 ∧ c = Nat.digitChar d := by
  intro f
  induction f with
  | zero => intro n c h; omega
  | succ f ih =>
    intro n c h hc
    by_cases h10 : n < 10
    · rw [decDigitsAux, if_pos h10] at hc
      exact ⟨n, h10, (List.mem_singleton.mp hc).symm ▸ rfl⟩
    · have hlt : n / 10 < n := Nat.div_lt_self (by omega) (by omega)
      rw [decDigitsAux, if_neg h10] at hc
      rcases List.mem_append.mp hc with hm | hm
      · exact ih _ _ (by omega) hm
      · exact ⟨n % 10, Nat.mod_lt _ (by omega), (List.mem_singleton.mp hm)⟩

theorem decRepr_no_dot (n : Nat) : '.' ∉ (decRepr n).data := by
  intro hmem
  obtain ⟨d, hd, hc⟩ := mem_decDigitsAux _ _ _ (Nat.lt_succ_self n) hmem
  exact digitChar_ne_dot hd hc.symm

theorem append_sep_inj {x : Char} :
    ∀ (a b u v : List Char), x ∉ a → x ∉ b → a ++ x :: u = b ++ x :: v →
      a = b ∧ u = v := by
  intro a
  induction a with
  | nil =>
    intro b u v _ hb h
    cases b with
    | nil => simpa using h
    | cons c b' =>
      simp only [List.nil_append, List.cons_append, List.cons.injEq] at h
      exact absurd (h.1 ▸ List.mem_cons_self c b') hb
  | cons c a' ih =>
    intro b u v ha hb h
    cases b with
    | nil =>
      simp only [List.cons_append, List.nil_append, List.cons.injEq] at h
      exact absurd (h.1 ▸ List.mem_cons_self c a') (h.1 ▸ ha)
    | cons c' b' =>
      simp only [List.cons_append, List.cons.injEq] at h
      obtain ⟨h1, h2⟩ := h
      have := ih b' u v (fun hx => ha (List.mem_cons_of_mem _ hx))
        (fun hx => hb (List.mem_cons_of_mem _ hx)) h2
      exact ⟨by rw [h1, this.1], this.2⟩

/-- Cancel the shared prefix and suffix of two constructed locators. -/
theorem mkFilePath_ts_inj {bid ty e : String} {t1 t2 : Nat}
    (h : mkFilePath bid (mkFileName ty t1 e) = mkFilePath bid (mkFileName ty t2 e)) :
    t1 = t2 := by
  have hd := congrArg String.data h
  simp only [mkFilePath, mkFileName, String.data_append] at hd
  simp only [List.append_assoc, List.singleton_append, List.cons_append,
    List.append_cancel_left_eq, List.cons.injEq, true_and] at hd
  have := append_sep_inj _ _ _ _ (decRepr_no_dot t1) (decRepr_no_dot t2) hd
  exact decRepr_inj (String.ext this.1)

/-! ## Claim theorems (concrete evaluations) -/

/-- C1: the spec says that when at least one file of the batch was persisted
and the business had no previously persisted document, the batch-level
post-processing advances `setup_step` to at least 2.  The code checks for
pre-existing documents only *after* this batch's inserts, so the query always
sees the rows the batch just created and the update never fires: on an empty
documents table a fully successful single-file batch leaves `setup_step` at
1. -/
theorem C1_first_upload_setup_step_not_advanced :
    emptyDb.docs = [] ∧
    emptyDb.profile.setup_step = 1 ∧
    okUploadedCount (handler oneReq true goodOracle emptyDb).1 = 1 ∧
    (handler oneReq true goodOracle emptyDb).2.1.profile.setup_step = 1 ∧
    ¬ 2 ≤ (handler oneReq true goodOracle emptyDb).2.1.profile.setup_step := by
  decide

/-- C6 counterexample: the claim says every character outside alphanumerics,
whitespace, `.` and `-` is replaced by a space, but the code's `\w` class also
keeps the underscore: on `"_"` the code returns `"_"` while the claimed
normalizer would return `""`. -/
theorem C6_counterexample :
    normalizedName "_" = "_" ∧ claimNormalizedName "_" = "" ∧ ("_" : String) ≠ "" := by
  decide

/-- C7 counterexample: for a batch in which every file succeeded the response
sets `errors` to `undefined` (`errors.length > 0 ? errors : undefined`), not
to an (empty) list, refuting "a list even when every file succeeded". -/
theorem C7_counterexample :
    okUploadedCount (handler oneReq true goodOracle emptyDb).1 = 1 ∧
    okErrorsField (handler oneReq true goodOracle emptyDb).1 = some none := by
  decide

/-- C8 counterexample: two distinct files of one batch that resolve to the
same document type and are processed at the same `Date.now()` millisecond get
the *same* storage locator, refuting the claimed uniqueness. -/
theorem C8_counterexample :
    twinFiles.length = 2 ∧
    (∀ f ∈ twinFiles, (goodOracle.timeOf 0 = 1000 ∧ f.size ≤ 5242880)) ∧
    resolveDocumentType "a.pdf" twinMap 0 = "drivers_license" ∧
    resolveDocumentType "b.pdf" twinMap 1 = "drivers_license" ∧
    (processFiles "b1" twinMap goodOracle twinFiles 0 emptyDb).events =
      [.storWrite "provider-documents/b1/drivers_license_1000.pdf",
       .storWrite "provider-documents/b1/drivers_license_1000.pdf"] := by
  decide

/-! ## C2: requirement evaluator -/

/-- The qualifying-type list contains `t` iff the business owns a
non-rejected row of that type. -/
theorem qualifyingTypes_contains_iff (bid : String) (db : DB) (t : String) :
    ((qualifyingTypes bid db).contains t = true) ↔
      ∃ d ∈ db.docs, d.business_id = bid ∧ d.document_type = t ∧
        (d.verification_status = "pending" ∨ d.verification_status = "verified" ∨
         d.verification_status = "under_review") := by
  simp only [qualifyingTypes, List.contains, List.elem_iff, List.mem_map,
    List.mem_filter, Bool.and_eq_true, Bool.or_eq_true, beq_iff_eq]
  constructor
  · rintro ⟨d, ⟨hd, hb, hs⟩, ht⟩
    exact ⟨d, hd, hb, ht, or_assoc.mp hs⟩
  · rintro ⟨d, hd, hb, ht, hs⟩
    exact ⟨d, ⟨hd, hb, or_assoc.mpr hs⟩, ht⟩

/-- C2: the requirement evaluator returns true iff every label of the
required set — the four base labels, plus `business_license` when the legal
form is not sole proprietorship — appears among the business's document-type
labels whose verification status is pending, verified or under_review
(rejected rows never qualify). -/
theorem C2_requirement_evaluator (bt bid : String) (db : DB) :
    allRequiredUploaded bt bid db = true ↔
      ∀ t : String,
        (t ∈ (["drivers_license", "proof_of_address", "professional_license",
               "professional_certificate"] : List String) ∨
         (bt ≠ "sole_proprietorship" ∧ t = "business_license")) →
        ∃ d ∈ db.docs, d.business_id = bid ∧ d.document_type = t ∧
          (d.verification_status = "pending" ∨ d.verification_status = "verified" ∨
           d.verification_status = "under_review") := by
  rw [allRequiredUploaded, List.all_eq_true]
  constructor
  · intro hall t ht
    rcases ht with hmem | ⟨hbt, rfl⟩
    · exact (qualifyingTypes_contains_iff bid db t).mp
        (hall t (by rw [requiredTypesFor]; exact List.mem_append_left _ hmem))
    · refine (qualifyingTypes_contains_iff bid db _).mp (hall _ ?_)
      rw [requiredTypesFor, if_pos hbt]
      exact List.mem_append_right _ (List.mem_singleton.mpr rfl)
  · intro hx t ht
    apply (qualifyingTypes_contains_iff bid db t).mpr
    apply hx
    rw [requiredTypesFor] at ht
    rcases List.mem_append.mp ht with h | h
    · exact Or.inl h
    · by_cases hbt : bt ≠ "sole_proprietorship"
      · rw [if_pos hbt] at h
        exact Or.inr ⟨hbt, List.mem_singleton.mp h⟩
      · rw [if_neg hbt] at h
        simp at h

theorem C2_witness :
    ∃ d ∈ fullDb.docs, d.business_id = "b1" ∧ d.document_type = "drivers_license" ∧
      (d.verification_status = "pending" ∨ d.verification_status = "verified" ∨
       d.verification_status = "under_review") :=
  (C2_requirement_evaluator "llc" "b1" fullDb).mp (by decide) "drivers_license"
    (Or.inl (by decide))

/-! ## C3: document-type resolution order -/

/-- C3: resolution tries the exact (truthy) mapping lookup, then — only on
failure — the first key with an equal normalized form, then the positional
default `document_<i>`; in particular the two-file scenario of the claim
resolves to `drivers_license` and `document_1`, and an empty mapping always
yields `document_<i>`. -/
theorem C3_resolution_order :
    (∀ name m i v, lookupExact name m = some v → v ≠ "" →
        resolveDocumentType name m i = v) ∧
    (∀ name pre k v post i,
        (lookupExact name (pre ++ (k, v) :: post) = none ∨
         lookupExact name (pre ++ (k, v) :: post) = some "") →
        (∀ kv ∈ pre, normalizedName kv.1 ≠ normalizedName name) →
        normalizedName k = normalizedName name → v ≠ "" →
        resolveDocumentType name (pre ++ (k, v) :: post) i = v) ∧
    (∀ name m i,
        (lookupExact name m = none ∨ lookupExact name m = some "") →
        (lookupNormalized name m = none ∨ lookupNormalized name m = some "") →
        resolveDocumentType name m i = "document_" ++ decRepr i) ∧
    (resolveDocumentType "a.pdf" [("a.pdf", "drivers_license")] 0 = "drivers_license" ∧
     resolveDocumentType "b.png" [("a.pdf", "drivers_license")] 1 = "document_1") ∧
    (∀ name i, resolveDocumentType name [] i = "document_" ++ decRepr i) := by
  refine ⟨?_, ?_, ?_, ⟨by decide, by decide⟩, ?_⟩
  · intro name m i v h hv
    simp [resolveDocumentType, h, hv]
  · intro name pre k v post i hex hpre hk hv
    have hn : lookupNormalized name (pre ++ (k, v) :: post) = some v := by
      rw [lookupNormalized, List.find?_append]
      have hp : (pre.find? fun kv => normalizedName kv.1 == normalizedName name) = none := by
        rw [List.find?_eq_none]
        intro x hx
        simpa using hpre x hx
      rw [hp, List.find?_cons_of_pos _ (by simpa using hk)]
      rfl
    rcases hex with h0 | h0 <;> simp [resolveDocumentType, h0, hn, hv]
  · intro name m i h0 h1
    rcases h0 with h0 | h0 <;> rcases h1 with h1 | h1 <;>
      simp [resolveDocumentType, h0, h1]
  · intro name i
    simp [resolveDocumentType, lookupExact, lookupNormalized]

theorem C3_witness :
    resolveDocumentType "c.png" [("c.png", "proof_of_address")] 5 = "proof_of_address" :=
  C3_resolution_order.1 "c.png" [("c.png", "proof_of_address")] 5 "proof_of_address"
    (by decide) (by decide)

/-! ## C4: files over 5 MB are rejected before any remote call -/

/-- C4: for a file over 5·2^20 bytes, per-file processing performs no remote
write at all, records exactly one per-file error that embeds the size in MB
(`fixed2MB`), and the rest of the batch is processed unchanged. -/
theorem C4_oversize_never_written (bid : String) (maps : List (String × String))
    (o : Oracle) (i : Nat) (db : DB) (f : UFile) (h : 5242880 < f.size) :
    processFile bid maps o i f db = ⟨db, [], [mkSizeErr f.originalname f.size], []⟩ ∧
    (∀ p, Event.storWrite p ∉ (processFile bid maps o i f db).events) ∧
    (∃ a b, mkSizeErr f.originalname f.size = a ++ (fixed2MB f.size ++ " MB") ++ b) ∧
    (∀ rest, processFiles bid maps o (f :: rest) i db =
      ⟨(processFiles bid maps o rest (i + 1) db).db,
       (processFiles bid maps o rest (i + 1) db).uploaded,
       mkSizeErr f.originalname f.size :: (processFiles bid maps o rest (i + 1) db).errors,
       (processFiles bid maps o rest (i + 1) db).events⟩) := by
  have h1 : processFile bid maps o i f db =
      ⟨db, [], [mkSizeErr f.originalname f.size], []⟩ := by
    simp [processFile, h]
  refine ⟨h1, ?_, ?_, ?_⟩
  · intro p hp
    rw [h1] at hp
    simp at hp
  · refine ⟨"Failed to process " ++ f.originalname ++ ": File size (",
      ") exceeds the 5MB limit", ?_⟩
    have hlit : (" MB" : String) ++ ") exceeds the 5MB limit" =
        " MB) exceeds the 5MB limit" := by decide
    rw [mkSizeErr, ← hlit]
    simp only [String.append_assoc]
  · intro rest
    simp [processFiles, h1]

theorem C4_witness :
    5242880 < oversizedFile.size ∧
    processFile "b1" [] goodOracle 0 oversizedFile emptyDb =
      ⟨emptyDb, [], [mkSizeErr oversizedFile.originalname oversizedFile.size], []⟩ :=
  ⟨by decide,
   (C4_oversize_never_written "b1" [] goodOracle 0 emptyDb oversizedFile (by decide)).1⟩

/-! ## C5: compensating delete after a failed metadata insert -/

/-- C5: when the blob write succeeds and the metadata insert fails, the blob
delete for the just-written path is attempted exactly once, the per-file
error is still recorded, no success entry is appended, the batch continues
with the remaining files, and the outcome of the delete itself (`removeOk`)
has no effect on anything the caller sees. -/
theorem C5_insert_failure_compensation (bid : String) (maps : List (String × String))
    (o : Oracle) (i : Nat) (db : DB) (f : UFile)
    (hsz : f.size ≤ 5242880) (hup : o.uploadOk i = true) (hins : o.insertOk i = false) :
    processFile bid maps o i f db =
      ⟨db, [],
       ["Failed to save record for " ++ f.originalname ++ ": " ++ o.insertErrMsg i],
       [.storWrite (mkFilePath bid (mkFileName (resolveDocumentType f.originalname maps i)
          (o.timeOf i) (lastExt f.originalname))),
        .storRemove (mkFilePath bid (mkFileName (resolveDocumentType f.originalname maps i)
          (o.timeOf i) (lastExt f.originalname)))]⟩ ∧
    (processFile bid maps o i f db).events.count
      (.storRemove (mkFilePath bid (mkFileName (resolveDocumentType f.originalname maps i)
        (o.timeOf i) (lastExt f.originalname)))) = 1 ∧
    (∀ rest, (processFiles bid maps o (f :: rest) i db).uploaded =
        (processFiles bid maps o rest (i + 1) db).uploaded ∧
      (processFiles bid maps o (f :: rest) i db).db =
        (processFiles bid maps o rest (i + 1) db).db) ∧
    (∀ u ue : Nat → Bool, ∀ um : Nat → String, ∀ ins : Nat → Bool,
     ∀ ie ri ua : Nat → String, ∀ ti : Nat → Nat, ∀ pu : String → String,
     ∀ g₁ g₂ : Nat → Bool,
       processFile bid maps ⟨u, um, ue, ins, ie, ri, ua, ti, pu, g₁⟩ i f db =
       processFile bid maps ⟨u, um, ue, ins, ie, ri, ua, ti, pu, g₂⟩ i f db) := by
  have hns : ¬ 5242880 < f.size := Nat.not_lt.mpr hsz
  have h1 : processFile bid maps o i f db =
      ⟨db, [],
       ["Failed to save record for " ++ f.originalname ++ ": " ++ o.insertErrMsg i],
       [.storWrite (mkFilePath bid (mkFileName (resolveDocumentType f.originalname maps i)
          (o.timeOf i) (lastExt f.originalname))),
        .storRemove (mkFilePath bid (mkFileName (resolveDocumentType f.originalname maps i)
          (o.timeOf i) (lastExt f.originalname)))]⟩ := by
    simp [processFile, hns, hup, hins]
  refine ⟨h1, ?_, ?_, ?_⟩
  · rw [h1]
    simp [List.count_cons]
  · intro rest
    constructor <;> simp [processFiles, h1]
  · intro u ue um ins ie ri ua ti pu g₁ g₂
    rfl

theorem C5_witness :
    processFile "b1" [("a.pdf", "drivers_license")] insFailOracle 0 onePdf emptyDb =
      ⟨emptyDb, [],
       ["Failed to save record for " ++ onePdf.originalname ++ ": " ++
         insFailOracle.insertErrMsg 0],
       [.storWrite (mkFilePath "b1" (mkFileName
          (resolveDocumentType onePdf.originalname [("a.pdf", "drivers_license")] 0)
          (insFailOracle.timeOf 0) (lastExt onePdf.originalname))),
        .storRemove (mkFilePath "b1" (mkFileName
          (resolveDocumentType onePdf.originalname [("a.pdf", "drivers_license")] 0)
          (insFailOracle.timeOf 0) (lastExt onePdf.originalname)))]⟩ :=
  (C5_insert_failure_compensation "b1" [("a.pdf", "drivers_license")] insFailOracle 0
    emptyDb onePdf (by decide) (by decide) (by decide)).1

/-! ## C10: the multer intake boundary is batch-fatal -/

/-- A batch containing a file with a disallowed MIME type or over 10 MB never
passes the multer middleware. -/
theorem multerCheck_bad_file :
    ∀ (n : Nat) (files : List UFile),
      (∃ f ∈ files, (allowedTypes.contains f.mimetype) = false ∨ 10485760 < f.size) →
      multerCheck n files ≠ none := by
  intro n files
  induction files generalizing n with
  | nil =>
    rintro ⟨f, hf, _⟩
    cases hf
  | cons f rest ih =>
    rintro ⟨g, hg, hbad⟩
    rw [multerCheck]
    by_cases h0 : n = 0
    · simp [h0]
    · rw [if_neg h0]
      by_cases hmt : (allowedTypes.contains f.mimetype) = false
      · rw [if_pos hmt]
        exact Option.some_ne_none _
      · rw [if_neg hmt]
        by_cases hsz : 10485760 < f.size
        · rw [if_pos hsz]
          exact Option.some_ne_none _
        · rw [if_neg hsz]
          rcases List.mem_cons.mp hg with rfl | hg'
          · rcases hbad with hb | hb
            · exact absurd hb hmt
            · exact absurd hb hsz
          · exact ih (n - 1) ⟨g, hg', hbad⟩

/-- C10: if any file of the batch has a MIME type outside
{image/jpeg, image/png, application/pdf} or exceeds 10 MB, the multer
middleware aborts and the whole request fails with one top-level
500 error before any file is processed: the database is untouched and no
storage call is made, also for the valid files of the batch. -/
theorem C10_intake_batch_fatal (req : UploadRequest) (ownerOk : Bool)
    (o : Oracle) (db : DB)
    (h : ∃ f ∈ req.files, f.mimetype ∉ allowedTypes ∨ 10485760 < f.size) :
    ∃ msg, handler req ownerOk o db =
      (.fatal 500 "Internal server error" (some msg), db, []) := by
  have hbad : ∃ f ∈ req.files,
      (allowedTypes.contains f.mimetype) = false ∨ 10485760 < f.size := by
    obtain ⟨f, hf, hb⟩ := h
    refine ⟨f, hf, ?_⟩
    rcases hb with hb | hb
    · exact Or.inl (by simpa [List.contains, List.elem_iff] using hb)
    · exact Or.inr hb
  obtain ⟨msg, hmsg⟩ :=
    Option.ne_none_iff_exists'.mp (multerCheck_bad_file 10 req.files hbad)
  exact ⟨msg, by simp [handler, hmsg]⟩

theorem C10_witness :
    ∃ msg, handler badReq true goodOracle emptyDb =
      (.fatal 500 "Internal server error" (some msg), emptyDb, []) :=
  C10_intake_batch_fatal badReq true goodOracle emptyDb
    ⟨badMimeFile, by decide, Or.inl (by decide)⟩

/-! ## C7 (amended): the structured result -/

/-- C7 (amended): for every batch passing precondition validation the caller
receives the structured result: the success entries, the per-file error list
when at least one error occurred and an absent (`undefined`) field when every
file succeeded, the aggregate readiness boolean, the required-type list and
the uploaded-type list. -/
theorem C7_structured_result (req : UploadRequest) (ownerOk : Bool) (o : Oracle)
    (db : DB) (ms : List (String × String))
    (h1 : multerCheck 10 req.files = none) (h2 : req.userId ≠ "")
    (h3 : req.businessId ≠ "") (h4 : req.files ≠ [])
    (h5 : req.documentMappings = some ms) (h6 : ownerOk = true)
    (h7 : db.profile.id = req.businessId) :
    (handler req ownerOk o db).1 = HResp.ok {
      uploaded := (processFiles req.businessId ms o req.files 0 db).uploaded,
      errors := if (processFiles req.businessId ms o req.files 0 db).errors = []
        then none else some (processFiles req.businessId ms o req.files 0 db).errors,
      allRequiredUploaded := allRequiredUploaded db.profile.business_type req.businessId
        (postProcess req.businessId db.profile
          (processFiles req.businessId ms o req.files 0 db)),
      requiredDocuments := requiredTypesFor db.profile.business_type,
      uploadedDocuments := qualifyingTypes req.businessId
        (postProcess req.businessId db.profile
          (processFiles req.businessId ms o req.files 0 db)) } := by
  subst h6
  have h4' : ¬ req.files.length = 0 := by
    simpa [List.length_eq_zero] using h4
  have hcond1 : ¬ (req.userId = "" ∨ req.businessId = "") := by simp [h2, h3]
  have hcond3 : ¬ (true = false) := by simp
  have hcond4 : ¬ ((db.profile.id == req.businessId) = false) := by simp [h7]
  simp only [handler, h1, h5, if_neg hcond1, if_neg h4', if_neg hcond3,
    if_neg hcond4, allRequiredUploaded]
  by_cases he : (processFiles req.businessId ms o req.files 0 db).errors = [] <;>
    simp [he, List.length_pos]

theorem C7_witness :
    (handler oneReq true goodOracle emptyDb).1 = HResp.ok {
      uploaded := (processFiles "b1" [("a.pdf", "drivers_license")] goodOracle
        [onePdf] 0 emptyDb).uploaded,
      errors := if (processFiles "b1" [("a.pdf", "drivers_license")] goodOracle
          [onePdf] 0 emptyDb).errors = []
        then none else some (processFiles "b1" [("a.pdf", "drivers_license")] goodOracle
          [onePdf] 0 emptyDb).errors,
      allRequiredUploaded := allRequiredUploaded "llc" "b1"
        (postProcess "b1" baseProfile (processFiles "b1" [("a.pdf", "drivers_license")]
          goodOracle [onePdf] 0 emptyDb)),
      requiredDocuments := requiredTypesFor "llc",
      uploadedDocuments := qualifyingTypes "b1"
        (postProcess "b1" baseProfile (processFiles "b1" [("a.pdf", "drivers_license")]
          goodOracle [onePdf] 0 emptyDb)) } :=
  C7_structured_result oneReq true goodOracle emptyDb [("a.pdf", "drivers_license")]
    (by decide) (by decide) (by decide) (by decide) rfl rfl rfl

/-! ## C8 (amended): locator format and timestamp-conditional uniqueness -/

/-- Every storage path constructed while processing one file is the
locator built from the resolved type, the file's captured timestamp and the
original extension. -/
theorem processFile_event_path (bid : String) (maps : List (String × String))
    (o : Oracle) (i : Nat) (f : UFile) (db : DB) (e : Event)
    (he : e ∈ (processFile bid maps o i f db).events) :
    (e = .storWrite (mkFilePath bid (mkFileName (resolveDocumentType f.originalname maps i)
        (o.timeOf i) (lastExt f.originalname))) ∨
     e = .storRemove (mkFilePath bid (mkFileName (resolveDocumentType f.originalname maps i)
        (o.timeOf i) (lastExt f.originalname)))) := by
  rw [processFile] at he
  split at he
  · simp at he
  · split at he
    · simp at he
      exact Or.inl he
    · split at he
      · simp at he
        rcases he with he | he
        · exact Or.inl he
        · exact Or.inr he
      · simp at he
        exact Or.inl he

/-- C8 (amended): every constructed storage locator has the form
`provider-documents/<business-id>/<document-type>_<timestamp>.<extension>`,
and two locators for the same document type and extension are distinct
whenever their captured timestamps are distinct — equal timestamps (possible
at millisecond resolution) give equal locators, as the counterexample
shows. -/
theorem C8_locator_format_and_uniqueness :
    (∀ bid maps o i (f : UFile) db p,
        (Event.storWrite p ∈ (processFile bid maps o i f db).events ∨
         Event.storRemove p ∈ (processFile bid maps o i f db).events) →
        p = "provider-documents/" ++ bid ++ "/" ++
          resolveDocumentType f.originalname maps i ++ "_" ++
          decRepr (o.timeOf i) ++ "." ++ lastExt f.originalname) ∧
    (∀ bid ty e t1 t2, t1 ≠ t2 →
        mkFilePath bid (mkFileName ty t1 e) ≠ mkFilePath bid (mkFileName ty t2 e)) := by
  constructor
  · intro bid maps o i f db p hp
    have hform : mkFilePath bid (mkFileName (resolveDocumentType f.originalname maps i)
        (o.timeOf i) (lastExt f.originalname)) =
        "provider-documents/" ++ bid ++ "/" ++
          resolveDocumentType f.originalname maps i ++ "_" ++
          decRepr (o.timeOf i) ++ "." ++ lastExt f.originalname := by
      rw [mkFilePath, mkFileName]
      simp only [String.append_assoc]
    rcases hp with hp | hp
    · rcases processFile_event_path bid maps o i f db _ hp with h | h
      · rw [← hform]
        exact (Event.storWrite.injEq _ _).mp h
      · cases h
    · rcases processFile_event_path bid maps o i f db _ hp with h | h
      · cases h
      · rw [← hform]
        exact (Event.storRemove.injEq _ _).mp h
  · intro bid ty e t1 t2 hne heq
    exact hne (mkFilePath_ts_inj heq)

theorem C8_witness :
    mkFilePath "b1" (mkFileName "drivers_license" 1000 "pdf") ≠
      mkFilePath "b1" (mkFileName "drivers_license" 1001 "pdf") :=
  C8_locator_format_and_uniqueness.2 "b1" "drivers_license" "pdf" 1000 1001 (by decide)

/-! ## Normalizer lemmas (towards C6 amended and C9) -/

theorem keep_eq_amendedKeep (c : Char) : keepJS c = amendedKeep c := rfl

theorem keepJS_blank : keepJS ' ' = true := by decide

theorem replaceBad_keep (l : List Char) : ∀ c ∈ replaceBad l, keepJS c = true := by
  intro c hc
  rw [replaceBad, List.mem_map] at hc
  obtain ⟨x, _, hx⟩ := hc
  by_cases hk : keepJS x = true
  · rw [← hx, if_pos hk]; exact hk
  · rw [← hx, if_neg hk]; exact keepJS_blank

theorem replaceBad_eq_self (m : List Char) (h : ∀ c ∈ m, keepJS c = true) :
    replaceBad m = m := by
  induction m with
  | nil => rfl
  | cons a t ih =>
    rw [replaceBad, List.map_cons, if_pos (h a (List.mem_cons_self a t))]
    rw [replaceBad] at ih
    rw [ih fun c hc => h c (List.mem_cons_of_mem a hc)]

theorem collapseWS_cons_nospace (a : Char) (m : List Char) (ha : isSpaceJS a = false) :
    collapseWS (a :: m) = a :: collapseWS m := by
  cases m with
  | nil => simp [collapseWS, ha]
  | cons b t => simp [collapseWS, ha]

theorem collapseWS_space_run :
    ∀ (r : List Char) (s : Char), isSpaceJS s = true →
      collapseWS (s :: r) = ' ' :: collapseWS (r.dropWhile isSpaceJS) := by
  intro r
  induction r with
  | nil => intro s hs; simp [collapseWS, hs]
  | cons b r' ih =>
    intro s hs
    by_cases hb : isSpaceJS b = true
    · rw [List.dropWhile_cons_of_pos hb]
      rw [show collapseWS (s :: b :: r') = collapseWS (b :: r') by simp [collapseWS, hs, hb]]
      exact ih b hb
    · rw [List.dropWhile_cons_of_neg (by simp [hb])]
      have hbf : isSpaceJS b = false := by simpa using hb
      simp [collapseWS, hs, hbf]

theorem collapseWS_append_nospace :
    ∀ (w r : List Char), (∀ c ∈ w, isSpaceJS c = false) →
      collapseWS (w ++ r) = w ++ collapseWS r := by
  intro w
  induction w with
  | nil => intro r _; rfl
  | cons a w' ih =>
    intro r h
    rw [List.cons_append,
      collapseWS_cons_nospace a (w' ++ r) (h a (List.mem_cons_self a w')),
      ih r fun c hc => h c (List.mem_cons_of_mem a hc)]
    simp

theorem trimL_cons_space (c : Char) (l : List Char) (hc : isSpaceJS c = true) :
    trimL (c :: l) = trimL l :=
  List.dropWhile_cons_of_pos hc

theorem trimL_cons_nospace (c : Char) (l : List Char) (hc : isSpaceJS c = false) :
    trimL (c :: l) = c :: l :=
  List.dropWhile_cons_of_neg (by simp [hc])

theorem trimR_eq_rdrop (l : List Char) : trimR l = List.rdropWhile isSpaceJS l := rfl

theorem trimR_eq_nil_iff (l : List Char) :
    trimR l = [] ↔ ∀ x ∈ l, isSpaceJS x = true := by
  rw [trimR_eq_rdrop, List.rdropWhile_eq_nil_iff]

theorem dropWhile_all_neg {p : α → Bool} {m : List α} (h : ∀ x ∈ m, p x = false) :
    m.dropWhile p = m := by
  cases m with
  | nil => rfl
  | cons a t =>
    exact List.dropWhile_cons_of_neg (by simp [h a (List.mem_cons_self a t)])

theorem trimR_nospace (l : List Char) (h : ∀ c ∈ l, isSpaceJS c = false) :
    trimR l = l := by
  rw [trimR, dropWhile_all_neg (fun x hx => h x (List.mem_reverse.mp hx)),
    List.reverse_reverse]

theorem trimR_append_space (u v : List Char) (hv : ∀ x ∈ v, isSpaceJS x = true) :
    trimR (u ++ v) = trimR u := by
  rw [trimR, List.reverse_append,
    List.dropWhile_append_of_pos (fun a ha => hv a (List.mem_reverse.mp ha))]
  rfl

theorem trimR_append_ne (u v : List Char) (hv : trimR v ≠ []) :
    trimR (u ++ v) = u ++ trimR v := by
  have hrev : (v.reverse.dropWhile isSpaceJS) = (trimR v).reverse := by
    rw [trimR, List.reverse_reverse]
  have hne : (v.reverse.dropWhile isSpaceJS).isEmpty = false := by
    rw [hrev, List.isEmpty_eq_false_iff_exists_mem]
    obtain ⟨c, hc⟩ := List.exists_mem_of_ne_nil _ hv
    exact ⟨c, List.mem_reverse.mpr hc⟩
  rw [trimR, List.reverse_append, List.dropWhile_append, hne]
  simp only [Bool.false_eq_true, if_false, List.reverse_append, List.reverse_reverse, hrev]

theorem trimWS_nospace (l : List Char) (h : ∀ c ∈ l, isSpaceJS c = false) :
    trimWS l = l := by
  rw [trimWS]
  cases l with
  | nil => rfl
  | cons a t =>
    rw [trimL_cons_nospace a t (h a (List.mem_cons_self a t)), trimR_nospace _ h]

theorem trim_collapse_space (s : Char) (t : List Char) (hs : isSpaceJS s = true) :
    trimWS (collapseWS (s :: t)) = trimWS (collapseWS t) := by
  cases t with
  | nil =>
    rw [show collapseWS [s] = [' '] by simp [collapseWS, hs]]
    decide
  | cons b t' =>
    by_cases hb : isSpaceJS b = true
    · rw [show collapseWS (s :: b :: t') = collapseWS (b :: t') by
        simp [collapseWS, hs, hb]]
    · have hbf : isSpaceJS b = false := by simpa using hb
      rw [show collapseWS (s :: b :: t') = ' ' :: collapseWS (b :: t') by
        simp [collapseWS, hs, hbf]]
      rw [trimWS, trimL_cons_space ' ' _ (by decide), trimWS]

/-! ## splitWords / joinWords lemmas -/

theorem splitWordsF_congr :
    ∀ (f g : Nat) (l : List Char), l.length < f → l.length < g →
      splitWordsF f l = splitWordsF g l := by
  intro f
  induction f with
  | zero => intro g l hf; omega
  | succ f ih =>
    intro g l hf hg
    cases l with
    | nil => cases g with | zero => rfl | succ g => rfl
    | cons c t =>
      cases g with
      | zero => omega
      | succ g =>
        simp only [splitWordsF]
        have ht : t.length < f := by
          simp only [List.length_cons] at hf; omega
        have ht' : t.length < g := by
          simp only [List.length_cons] at hg; omega
        have hd : (t.dropWhile fun d => !(isSpaceJS d)).length ≤ t.length :=
          (List.dropWhile_sublist _).length_le
        by_cases hc : isSpaceJS c = true
        · rw [if_pos hc, if_pos hc, ih g t ht ht']
        · rw [if_neg hc, if_neg hc,
            ih g _ (by omega) (by omega)]

theorem splitWords_nil : splitWords [] = [] := rfl

theorem splitWords_cons (c : Char) (t : List Char) :
    splitWords (c :: t) = if isSpaceJS c then splitWords t
      else (c :: t.takeWhile fun d => !(isSpaceJS d)) ::
        splitWords (t.dropWhile fun d => !(isSpaceJS d)) := by
  have hd : (t.dropWhile fun d => !(isSpaceJS d)).length ≤ t.length :=
    (List.dropWhile_sublist _).length_le
  by_cases hc : isSpaceJS c = true
  · rw [if_pos hc]
    show splitWordsF (t.length + 1 + 1) (c :: t) = _
    rw [splitWordsF, if_pos hc]
    rfl
  · rw [if_neg hc]
    show splitWordsF (t.length + 1 + 1) (c :: t) = _
    rw [splitWordsF, if_neg hc]
    exact congrArg _ (splitWordsF_congr _ _ _ (by omega) (by omega))

theorem splitWords_cons_space (c : Char) (t : List Char) (hc : isSpaceJS c = true) :
    splitWords (c :: t) = splitWords t := by
  rw [splitWords_cons, if_pos hc]

theorem splitWords_cons_nospace (c : Char) (t : List Char) (hc : isSpaceJS c = false) :
    splitWords (c :: t) =
      (c :: t.takeWhile fun d => !(isSpaceJS d)) ::
        splitWords (t.dropWhile fun d => !(isSpaceJS d)) := by
  rw [splitWords_cons, if_neg (by simp [hc])]

theorem splitWords_dropWhile_space :
    ∀ l : List Char, splitWords (l.dropWhile isSpaceJS) = splitWords l := by
  intro l
  induction l with
  | nil => rfl
  | cons c t ih =>
    by_cases hc : isSpaceJS c = true
    · rw [List.dropWhile_cons_of_pos hc, ih, splitWords_cons_space c t hc]
    · rw [List.dropWhile_cons_of_neg (by simpa using hc)]

theorem splitWords_words_aux :
    ∀ (n : Nat) (l : List Char), l.length ≤ n → ∀ w ∈ splitWords l,
      w ≠ [] ∧ ∀ c ∈ w, isSpaceJS c = false := by
  intro n
  induction n with
  | zero =>
    intro l hl w hw
    have : l = [] := List.length_eq_zero.mp (Nat.le_zero.mp hl)
    subst this
    rw [splitWords_nil] at hw
    cases hw
  | succ n ih =>
    intro l hl w hw
    cases l with
    | nil =>
      rw [splitWords_nil] at hw
      cases hw
    | cons c t =>
      have hlt : t.length ≤ n := by
        simp only [List.length_cons] at hl; omega
      by_cases hc : isSpaceJS c = true
      · rw [splitWords_cons_space c t hc] at hw
        exact ih t hlt w hw
      · have hcf : isSpaceJS c = false := by simpa using hc
        rw [splitWords_cons_nospace c t hcf] at hw
        rcases List.mem_cons.mp hw with rfl | hw'
        · refine ⟨by simp, ?_⟩
          intro x hx
          rcases List.mem_cons.mp hx with rfl | hx'
          · exact hcf
          · have := List.mem_takeWhile_imp hx'
            simpa using this
        · have hd : (t.dropWhile fun d => !(isSpaceJS d)).length ≤ n :=
            le_trans (List.dropWhile_sublist _).length_le hlt
          exact ih _ hd w hw'

/-- Every word of `splitWords l` is nonempty and whitespace-free. -/
theorem splitWords_words (l : List Char) :
    ∀ w ∈ splitWords l, w ≠ [] ∧ ∀ c ∈ w, isSpaceJS c = false :=
  splitWords_words_aux l.length l le_rfl

theorem splitWords_chars_aux :
    ∀ (n : Nat) (l : List Char), l.length ≤ n → ∀ w ∈ splitWords l,
      ∀ c ∈ w, c ∈ l := by
  intro n
  induction n with
  | zero =>
    intro l hl w hw
    have : l = [] := List.length_eq_zero.mp (Nat.le_zero.mp hl)
    subst this
    rw [splitWords_nil] at hw
    cases hw
  | succ n ih =>
    intro l hl w hw x hx
    cases l with
    | nil =>
      rw [splitWords_nil] at hw
      cases hw
    | cons c t =>
      have hlt : t.length ≤ n := by
        simp only [List.length_cons] at hl; omega
      by_cases hc : isSpaceJS c = true
      · rw [splitWords_cons_space c t hc] at hw
        exact List.mem_cons_of_mem c (ih t hlt w hw x hx)
      · have hcf : isSpaceJS c = false := by simpa using hc
        rw [splitWords_cons_nospace c t hcf] at hw
        rcases List.mem_cons.mp hw with rfl | hw'
        · rcases List.mem_cons.mp hx with rfl | hx'
          · exact List.mem_cons_self _ _
          · exact List.mem_cons_of_mem c ((List.takeWhile_sublist _).subset hx')
        · have hd : (t.dropWhile fun d => !(isSpaceJS d)).length ≤ n :=
            le_trans (List.dropWhile_sublist _).length_le hlt
          exact List.mem_cons_of_mem c
            ((List.dropWhile_sublist _).subset (ih _ hd w hw' x hx))

/-- Every character of `splitWords l`'s words occurs in `l`. -/
theorem splitWords_chars (l : List Char) :
    ∀ w ∈ splitWords l, ∀ c ∈ w, c ∈ l :=
  splitWords_chars_aux l.length l le_rfl

theorem joinWords_cons_ne (x : List Char) (ys : List (List Char)) (h : ys ≠ []) :
    joinWords (x :: ys) = x ++ ' ' :: joinWords ys := by
  cases ys with
  | nil => exact absurd rfl h
  | cons y ys' => rfl

theorem mem_joinWords :
    ∀ (ws : List (List Char)) (c : Char), c ∈ joinWords ws →
      (∃ w ∈ ws, c ∈ w) ∨ c = ' ' := by
  intro ws
  induction ws with
  | nil =>
    intro c hc
    cases hc
  | cons w ws' ih =>
    intro c hc
    cases ws' with
    | nil =>
      exact Or.inl ⟨w, List.mem_cons_self _ _, hc⟩
    | cons w2 ws'' =>
      rw [joinWords_cons_ne w (w2 :: ws'') (by simp)] at hc
      rcases List.mem_append.mp hc with hc' | hc'
      · exact Or.inl ⟨w, List.mem_cons_self _ _, hc'⟩
      · rcases List.mem_cons.mp hc' with rfl | hc''
        · exact Or.inr rfl
        · rcases ih c hc'' with ⟨w', hw', hcw'⟩ | h'
          · exact Or.inl ⟨w', List.mem_cons_of_mem _ hw', hcw'⟩
          · exact Or.inr h'


theorem trim_collapse_eq_joinWords_aux :
    ∀ (n : Nat) (l : List Char), l.length ≤ n →
      trimWS (collapseWS l) = joinWords (splitWords l) := by
  intro n
  induction n with
  | zero =>
    intro l hl
    have : l = [] := List.length_eq_zero.mp (Nat.le_zero.mp hl)
    subst this
    rfl
  | succ n ih =>
    intro l hl
    cases l with
    | nil => rfl
    | cons c t =>
      have hlt : t.length ≤ n := by
        simp only [List.length_cons] at hl; omega
      by_cases hc : isSpaceJS c = true
      · rw [trim_collapse_space c t hc, splitWords_cons_space c t hc]
        exact ih t hlt
      · have hcf : isSpaceJS c = false := by simpa using hc
        have htsplit : (t.takeWhile fun d => !(isSpaceJS d)) ++
            (t.dropWhile fun d => !(isSpaceJS d)) = t :=
          List.takeWhile_append_dropWhile _ t
        have hwns : ∀ x ∈ (t.takeWhile fun d => !(isSpaceJS d)), isSpaceJS x = false := by
          intro x hx
          have := List.mem_takeWhile_imp hx
          simpa using this
        have hcwns : ∀ x ∈ c :: (t.takeWhile fun d => !(isSpaceJS d)),
            isSpaceJS x = false := by
          intro x hx
          rcases List.mem_cons.mp hx with rfl | hx'
          · exact hcf
          · exact hwns x hx'
        have hcollapse : collapseWS (c :: t) =
            (c :: (t.takeWhile fun d => !(isSpaceJS d))) ++
              collapseWS (t.dropWhile fun d => !(isSpaceJS d)) := by
          conv_lhs => rw [← htsplit]
          rw [← List.cons_append]
          exact collapseWS_append_nospace _ _ hcwns
        rw [hcollapse, splitWords_cons_nospace c t hcf]
        have hrlen : (t.dropWhile fun d => !(isSpaceJS d)).length ≤ n :=
          le_trans (List.dropWhile_sublist _).length_le hlt
        cases hrshape : (t.dropWhile fun d => !(isSpaceJS d)) with
        | nil =>
          rw [splitWords_nil]
          rw [show collapseWS ([] : List Char) = [] from rfl, List.append_nil]
          exact trimWS_nospace _ hcwns
        | cons s r' =>
          have hs : isSpaceJS s = true := by
            have hh := List.head?_dropWhile_not (fun d => !(isSpaceJS d)) t
            rw [hrshape] at hh
            simpa using hh
          have hz := collapseWS_space_run r' s hs
          have hsplit_r : splitWords (s :: r') = splitWords (r'.dropWhile isSpaceJS) := by
            rw [splitWords_cons_space s r' hs, splitWords_dropWhile_space r']
          have hlsr : (s :: r').length ≤ n := hrshape ▸ hrlen
          have IHr : trimWS (collapseWS (s :: r')) = joinWords (splitWords (s :: r')) :=
            ih _ hlsr
          rw [hz, trimWS, trimL_cons_space ' ' _ (by decide), hsplit_r] at IHr
          cases hzshape : r'.dropWhile isSpaceJS with
          | nil =>
            have hz' : collapseWS (s :: r') = [' '] := by
              rw [hz, hzshape]
              rfl
            have hsr : splitWords (s :: r') = [] := by
              rw [hsplit_r, hzshape, splitWords_nil]
            rw [hz', hsr]
            rw [trimWS, List.cons_append, trimL_cons_nospace _ _ hcf,
              ← List.cons_append,
              trimR_append_space (c :: (t.takeWhile fun d => !(isSpaceJS d))) [' ']
                (by decide)]
            exact trimR_nospace _ hcwns
          | cons zc z' =>
            have hzc : isSpaceJS zc = false := by
              have hh := List.head?_dropWhile_not isSpaceJS r'
              rw [hzshape] at hh
              simpa using hh
            have hcz : collapseWS (r'.dropWhile isSpaceJS) = zc :: collapseWS z' := by
              rw [hzshape]
              exact collapseWS_cons_nospace zc z' hzc
            have hTRz_ne : trimR (collapseWS (r'.dropWhile isSpaceJS)) ≠ [] := by
              rw [hcz]
              intro h0
              rw [trimR_eq_nil_iff] at h0
              have := h0 zc (List.mem_cons_self _ _)
              rw [hzc] at this
              cases this
            have htrimLz : trimL (collapseWS (r'.dropWhile isSpaceJS)) =
                collapseWS (r'.dropWhile isSpaceJS) := by
              rw [hcz]
              exact trimL_cons_nospace _ _ hzc
            rw [htrimLz] at IHr
            have hsz_ne : splitWords (r'.dropWhile isSpaceJS) ≠ [] := by
              rw [hzshape, splitWords_cons_nospace zc z' hzc]
              simp
            rw [hz, hsplit_r, joinWords_cons_ne _ _ hsz_ne]
            rw [trimWS, List.cons_append, trimL_cons_nospace _ _ hcf,
              ← List.cons_append]
            have h2 : trimR (' ' :: collapseWS (r'.dropWhile isSpaceJS)) =
                ' ' :: trimR (collapseWS (r'.dropWhile isSpaceJS)) := by
              have := trimR_append_ne [' '] _ hTRz_ne
              simpa using this
            have h1 : trimR (' ' :: collapseWS (r'.dropWhile isSpaceJS)) ≠ [] := by
              rw [h2]
              simp
            rw [trimR_append_ne _ _ h1, h2, IHr]


/-- Collapsing whitespace runs and trimming equals joining the
whitespace-separated words with single spaces. -/
theorem trim_collapse_eq_joinWords (l : List Char) :
    trimWS (collapseWS l) = joinWords (splitWords l) :=
  trim_collapse_eq_joinWords_aux l.length l le_rfl

/-- Splitting a join of nonempty whitespace-free words recovers the words. -/
theorem splitWords_joinWords :
    ∀ ws : List (List Char),
      (∀ w ∈ ws, w ≠ [] ∧ ∀ c ∈ w, isSpaceJS c = false) →
      splitWords (joinWords ws) = ws := by
  intro ws
  induction ws with
  | nil => intro _; rfl
  | cons w ws' ih =>
    intro h
    obtain ⟨hne, hch⟩ := h w (List.mem_cons_self _ _)
    cases w with
    | nil => exact absurd rfl hne
    | cons ch wt =>
      have hchf : isSpaceJS ch = false := hch ch (List.mem_cons_self _ _)
      have hwt : ∀ x ∈ wt, isSpaceJS x = false := fun x hx =>
        hch x (List.mem_cons_of_mem _ hx)
      cases ws' with
      | nil =>
        show splitWords (ch :: wt) = [ch :: wt]
        rw [splitWords_cons_nospace ch wt hchf]
        have htk : wt.takeWhile (fun d => !(isSpaceJS d)) = wt :=
          List.takeWhile_eq_self_iff.mpr (by intro a ha; simp [hwt a ha])
        have hdp : wt.dropWhile (fun d => !(isSpaceJS d)) = [] :=
          List.dropWhile_eq_nil_iff.mpr (by intro a ha; simp [hwt a ha])
        rw [htk, hdp, splitWords_nil]
      | cons w2 ws'' =>
        rw [joinWords_cons_ne _ _ (by simp)]
        rw [List.cons_append]
        rw [splitWords_cons_nospace ch _ hchf]
        have htk : (wt ++ ' ' :: joinWords (w2 :: ws'')).takeWhile
            (fun d => !(isSpaceJS d)) = wt := by
          rw [List.takeWhile_append_of_pos (by intro a ha; simp [hwt a ha])]
          rw [List.takeWhile_cons_of_neg (by decide)]
          rw [List.append_nil]
        have hdp : (wt ++ ' ' :: joinWords (w2 :: ws'')).dropWhile
            (fun d => !(isSpaceJS d)) = ' ' :: joinWords (w2 :: ws'') := by
          rw [List.dropWhile_append_of_pos (by intro a ha; simp [hwt a ha])]
          rw [List.dropWhile_cons_of_neg (by decide)]
        rw [htk, hdp, splitWords_cons_space ' ' _ (by decide)]
        rw [ih fun w hw => h w (List.mem_cons_of_mem _ hw)]

/-- C6 (amended): the normalizer replaces every character outside
alphanumerics, *underscore*, whitespace, `.` and `-` with a space, collapses
consecutive whitespace to one space (restated as joining the
whitespace-separated words with single spaces) and trims; it is a pure total
function.  The underscore is the one amendment forced by the
counterexample. -/
theorem C6_amended_normalizer (s : String) :
    normalizedName s = amendedNormalizedName s := by
  rw [normalizedName, amendedNormalizedName]
  have hmap : (s.data.map fun c => if amendedKeep c then c else ' ') =
      replaceBad s.data := by
    rw [replaceBad]
    exact List.map_congr_left fun a _ => by rw [keep_eq_amendedKeep]
  rw [hmap]
  exact congrArg String.mk (trim_collapse_eq_joinWords (replaceBad s.data))

/-- C9: the filename normalizer is idempotent — normalizing twice yields the
same string as normalizing once. -/
theorem C9_normalizer_idempotent (s : String) :
    normalizedName (normalizedName s) = normalizedName s := by
  have h1 : normalizedName s = ⟨joinWords (splitWords (replaceBad s.data))⟩ := by
    rw [normalizedName]
    exact congrArg String.mk (trim_collapse_eq_joinWords _)
  rw [h1, normalizedName]
  have hdata : (String.mk (joinWords (splitWords (replaceBad s.data)))).data =
      joinWords (splitWords (replaceBad s.data)) := rfl
  rw [hdata]
  have hkeep : ∀ c ∈ joinWords (splitWords (replaceBad s.data)), keepJS c = true := by
    intro c hc
    rcases mem_joinWords _ c hc with ⟨w, hw, hcw⟩ | rfl
    · exact replaceBad_keep s.data c (splitWords_chars _ w hw c hcw)
    · exact keepJS_blank
  rw [replaceBad_eq_self _ hkeep]
  have hsj := splitWords_joinWords (splitWords (replaceBad s.data))
    (splitWords_words _)
  exact congrArg String.mk (by rw [trim_collapse_eq_joinWords _, hsj])


end Roam
